import Mathlib

/-!
# Verification of the poing MusicGen generation pipeline

Shallow embedding of `src/poing-core/src/musicgen.rs` (delay-pattern grid,
classifier-free guidance combination, top-k sampling, KV-cache update policy,
undelay/alignment) and of the generation entry points in
`src/poing-editor/src/model.rs`.

Machine floats (`f32`) of the source are modelled as rationals `ℚ`; the
transcendental `exp` used inside top-k sampling is modelled as an explicit
function parameter (the theorems hold for every choice, in particular the
true exponential). Tokens (`i64`) are modelled as `ℤ`. Tensors are modelled
as functions from indices, vectors as `List`.
-/

namespace Poing

/-! ## Constants (musicgen.rs lines 11-19) -/

def NUM_CODEBOOKS : ℕ := 4
def NUM_HEADS : ℕ := 16
def HEAD_DIM : ℕ := 64
def NUM_LAYERS : ℕ := 24
def BOS_TOKEN : ℤ := 2048
def PAD_TOKEN : ℤ := 2048
def GUIDANCE_SCALE : ℚ := 3
def MAX_LENGTH : ℕ := 1500
def TOP_K : ℕ := 50

/-! ## Delay-pattern grid (musicgen.rs lines 114-128, 268-287)

The grid `all_tokens` is a `2*NUM_CODEBOOKS × MAX_LENGTH` array of token ids;
we model it as a total function `row → column → token` (out-of-bounds cells
are irrelevant: the code never touches them). -/

def Grid : Type := ℕ → ℕ → ℤ

/-- Lines 124-128: `Array2::from_elem((rows, cols), PAD_TOKEN)` then
`all_tokens[[r, 0]] = BOS_TOKEN` for every row `r`. -/
def initGrid : Grid := fun r c =>
  if r < 2 * NUM_CODEBOOKS ∧ c = 0 then BOS_TOKEN else PAD_TOKEN

/-- Line 275: the activation guard `pos > delay` where `delay = cb`
(codebook `k` has delay `k`). -/
def is_active (codebook timestep : ℕ) : Bool := decide (codebook < timestep)

/-- Lines 259-266: `sampled` is a `vec![PAD_TOKEN; 2*NUM_CODEBOOKS]` and for
each codebook `cb`, `sampled[cb] = token` and `sampled[cb+NUM_CODEBOOKS] = token`
where `token = tok cb` is the top-k sample for that codebook. -/
def mkSampled (tok : ℕ → ℤ) : ℕ → ℤ := fun r =>
  if r < 2 * NUM_CODEBOOKS then tok (r % NUM_CODEBOOKS) else PAD_TOKEN

/-- Lines 268-287: at clock `step` write position `pos = step + 1`; if
`pos < total_seq_len`, then for every row `r` with codebook `cb = r % NUM_CODEBOOKS`,
the cell `(r, pos)` receives `sampled[r]` when `pos > cb`, else stays as it was. -/
def gridStep (sampled : ℕ → ℤ) (step : ℕ) (g : Grid) : Grid := fun r c =>
  if step + 1 < MAX_LENGTH ∧ r < 2 * NUM_CODEBOOKS ∧ c = step + 1 ∧
      is_active (r % NUM_CODEBOOKS) (step + 1) = true then
    sampled r
  else g r c

/-- The grid after `n` completed decoder-loop steps, where `tok s cb` is the
token the sampler produced for codebook `cb` at step `s` (the sampler and the
ONNX decoder are external to the grid; their outputs enter as an oracle). -/
def gridAfter (tok : ℕ → ℕ → ℤ) : ℕ → Grid
  | 0 => initGrid
  | n + 1 => gridStep (mkSampled (tok n)) n (gridAfter tok n)

/-! ## Undelay / alignment (musicgen.rs lines 294-309) -/

/-- Line 298: `aligned_len = total_seq_len - 1 - (NUM_CODEBOOKS - 1)`. -/
def aligned_len : ℕ := MAX_LENGTH - 1 - (NUM_CODEBOOKS - 1)

/-- Lines 299-309: `audio_codes_flat` starts as zeros; for `src_col = 1 + cb + t`
with `src_col < total_seq_len` the cell becomes `all_tokens[[cb, src_col]]`,
with the padding sentinel mapped to token id 0. -/
def undelay (g : Grid) (cb t : ℕ) : ℤ :=
  if 1 + cb + t < MAX_LENGTH then
    (if g cb (1 + cb + t) = PAD_TOKEN then 0 else g cb (1 + cb + t))
  else 0

/-- A grid-step only changes cells in column `step + 1`. -/
lemma gridStep_other_col (sampled : ℕ → ℤ) (step : ℕ) (g : Grid) (r t : ℕ)
    (ht : t ≠ step + 1) : gridStep sampled step g r t = g r t := by
  simp only [gridStep]
  rw [if_neg]
  rintro ⟨-, -, h, -⟩
  exact ht h

/-- C1: for every codebook `k` and timestep `t`, the delay-pattern activation
guard is `is_active k t = (t > k)`; after initialization column 0 of every row
holds the beginning-of-sequence token; and at a write step the cell in the
written column receives the sampled token exactly when the guard holds. -/
theorem delay_activation (tok : ℕ → ℤ) (g : Grid) (step r k t : ℕ)
    (hr : r < 2 * NUM_CODEBOOKS) :
    (is_active k t = decide (t > k))
    ∧ initGrid r 0 = BOS_TOKEN
    ∧ (step + 1 < MAX_LENGTH → is_active (r % NUM_CODEBOOKS) (step + 1) = true →
        gridStep (mkSampled tok) step g r (step + 1) = tok (r % NUM_CODEBOOKS))
    ∧ (is_active (r % NUM_CODEBOOKS) (step + 1) = false →
        gridStep (mkSampled tok) step g r (step + 1) = g r (step + 1)) := by
  refine ⟨rfl, ?_, ?_, ?_⟩
  · simp [initGrid, hr]
  · intro h1 h2
    unfold gridStep mkSampled
    rw [if_pos ⟨h1, hr, rfl, h2⟩, if_pos hr]
  · intro h
    unfold gridStep
    rw [if_neg]
    rintro ⟨-, -, -, h4⟩
    rw [h] at h4
    exact Bool.noConfusion h4

theorem delay_activation_witness :
    2 < 2 * NUM_CODEBOOKS ∧
    ((is_active 0 2 = decide (2 > 0))
    ∧ initGrid 2 0 = BOS_TOKEN
    ∧ (1 + 1 < MAX_LENGTH → is_active (2 % NUM_CODEBOOKS) (1 + 1) = true →
        gridStep (mkSampled fun _ => (5:ℤ)) 1 initGrid 2 (1 + 1) = (fun _ => (5:ℤ)) (2 % NUM_CODEBOOKS))
    ∧ (is_active (2 % NUM_CODEBOOKS) (1 + 1) = false →
        gridStep (mkSampled fun _ => (5:ℤ)) 1 initGrid 2 (1 + 1) = initGrid 2 (1 + 1))) :=
  ⟨by decide, delay_activation (fun _ => (5:ℤ)) initGrid 1 2 0 2 (by decide)⟩

/-- C3: after every completed step of the decoder loop, the conditional row
`row` and the unconditional row `row + NUM_CODEBOOKS` of the delay-pattern
grid hold identical tokens at every timestep. -/
theorem mirror_invariant (tok : ℕ → ℕ → ℤ) (n row t : ℕ)
    (hrow : row < NUM_CODEBOOKS) :
    gridAfter tok n row t = gridAfter tok n (row + NUM_CODEBOOKS) t := by
  have h4 : NUM_CODEBOOKS = 4 := rfl
  induction n with
  | zero =>
      simp only [gridAfter, initGrid]
      split_ifs <;> rfl
  | succ n ih =>
      by_cases ht : t = n + 1
      · subst ht
        simp only [gridAfter]
        unfold gridStep mkSampled
        have hmod : row % NUM_CODEBOOKS = row := Nat.mod_eq_of_lt hrow
        have hmod2 : (row + NUM_CODEBOOKS) % NUM_CODEBOOKS = row := by
          rw [Nat.add_mod_right]
          exact hmod
        have hlt : row < 2 * NUM_CODEBOOKS := by omega
        have hlt2 : row + NUM_CODEBOOKS < 2 * NUM_CODEBOOKS := by omega
        rw [hmod, hmod2]
        by_cases hact : (row < n + 1) ∧ n + 1 < MAX_LENGTH
        · rw [if_pos ⟨hact.2, hlt, rfl, by simpa [is_active] using hact.1⟩,
            if_pos hlt,
            if_pos ⟨hact.2, hlt2, rfl, by simpa [is_active] using hact.1⟩,
            if_pos hlt2]
        · rw [if_neg, if_neg]
          · exact ih
          · rintro ⟨a, -, -, d⟩
            exact hact ⟨by simpa [is_active] using d, a⟩
          · rintro ⟨a, -, -, d⟩
            exact hact ⟨by simpa [is_active] using d, a⟩
      · simp only [gridAfter]
        rw [gridStep_other_col _ _ _ _ _ ht, gridStep_other_col _ _ _ _ _ ht]
        exact ih

theorem mirror_invariant_witness :
    1 < NUM_CODEBOOKS ∧
    gridAfter (fun s cb => (s + cb : ℤ)) 3 1 2 =
      gridAfter (fun s cb => (s + cb : ℤ)) 3 (1 + NUM_CODEBOOKS) 2 :=
  ⟨by decide, mirror_invariant (fun s cb => (s + cb : ℤ)) 3 1 2 (by decide)⟩

/-- C2: for every codebook `cb < NUM_CODEBOOKS` and aligned timestep
`t < aligned_len`, the undelay stage yields `grid[cb][1 + cb + t]`, with the
padding sentinel mapped to token id 0, and
`aligned_len = MAX_LENGTH - 1 - (NUM_CODEBOOKS - 1)`. -/
theorem undelay_alignment (g : Grid) (cb t : ℕ)
    (hcb : cb < NUM_CODEBOOKS) (ht : t < aligned_len) :
    undelay g cb t =
      (if g cb (1 + cb + t) = PAD_TOKEN then 0 else g cb (1 + cb + t))
    ∧ aligned_len = MAX_LENGTH - 1 - (NUM_CODEBOOKS - 1) := by
  refine ⟨?_, rfl⟩
  have h1 : NUM_CODEBOOKS = 4 := rfl
  have h2 : MAX_LENGTH = 1500 := rfl
  have h3 : aligned_len = 1496 := rfl
  have hlt : 1 + cb + t < MAX_LENGTH := by omega
  simp only [undelay]
  rw [if_pos hlt]

theorem undelay_alignment_witness :
    1 < NUM_CODEBOOKS ∧ 0 < aligned_len ∧
    (undelay (fun _ _ => (7:ℤ)) 1 0 =
      (if (fun _ _ => (7:ℤ)) 1 (1 + 1 + 0) = PAD_TOKEN then 0
        else (fun _ _ => (7:ℤ)) 1 (1 + 1 + 0))
    ∧ aligned_len = MAX_LENGTH - 1 - (NUM_CODEBOOKS - 1)) :=
  ⟨by decide, by decide, undelay_alignment (fun _ _ => (7:ℤ)) 1 0 (by decide) (by decide)⟩

/-- C5 counterexample: the claim says every sampled token is written into the
grid for every row regardless of delay-pattern activity. At step 0 (write
position 1) the sampler produced token 7 for every codebook, yet row 1
(codebook 1, inactive since 1 ≤ 1) keeps the padding sentinel 2048 ≠ 7:
the code skips the write for inactive cells (musicgen.rs line 275). -/
theorem write_always_counterexample :
    mkSampled (fun _ => (7:ℤ)) 1 = 7 ∧
    gridStep (mkSampled (fun _ => (7:ℤ))) 0 initGrid 1 1 = PAD_TOKEN ∧
    PAD_TOKEN ≠ (7:ℤ) := by decide

/-- C5 (amended): at every generation step the sampled token is written into
the grid only for rows whose codebook is active at the written position
(`pos > cb`); inactive cells are left unchanged (they keep the padding
sentinel); and cells still equal to the padding sentinel are mapped to token
id 0 during undelay. -/
theorem write_policy (tok : ℕ → ℤ) (g : Grid) (step r : ℕ) (g2 : Grid)
    (cb t : ℕ) (hr : r < 2 * NUM_CODEBOOKS) (hcb : cb < NUM_CODEBOOKS)
    (ht : t < aligned_len) :
    (is_active (r % NUM_CODEBOOKS) (step + 1) = false →
      gridStep (mkSampled tok) step g r (step + 1) = g r (step + 1))
    ∧ (step + 1 < MAX_LENGTH → is_active (r % NUM_CODEBOOKS) (step + 1) = true →
      gridStep (mkSampled tok) step g r (step + 1) = tok (r % NUM_CODEBOOKS))
    ∧ (g2 cb (1 + cb + t) = PAD_TOKEN → undelay g2 cb t = 0) := by
  refine ⟨?_, ?_, ?_⟩
  · intro h
    unfold gridStep
    rw [if_neg]
    rintro ⟨-, -, -, h4⟩
    rw [h] at h4
    exact Bool.noConfusion h4
  · intro h1 h2
    unfold gridStep mkSampled
    rw [if_pos ⟨h1, hr, rfl, h2⟩, if_pos hr]
  · intro hpad
    have h1 : NUM_CODEBOOKS = 4 := rfl
    have h2 : MAX_LENGTH = 1500 := rfl
    have h3 : aligned_len = 1496 := rfl
    have hlt : 1 + cb + t < MAX_LENGTH := by omega
    simp only [undelay]
    rw [if_pos hlt, if_pos hpad]

theorem write_policy_witness :
    1 < 2 * NUM_CODEBOOKS ∧ 0 < NUM_CODEBOOKS ∧ 0 < aligned_len ∧
    ((is_active (1 % NUM_CODEBOOKS) (0 + 1) = false →
      gridStep (mkSampled fun _ => (7:ℤ)) 0 initGrid 1 (0 + 1) = initGrid 1 (0 + 1))
    ∧ (0 + 1 < MAX_LENGTH → is_active (1 % NUM_CODEBOOKS) (0 + 1) = true →
      gridStep (mkSampled fun _ => (7:ℤ)) 0 initGrid 1 (0 + 1) = (fun _ => (7:ℤ)) (1 % NUM_CODEBOOKS))
    ∧ ((fun _ _ => PAD_TOKEN : Grid) 0 (1 + 0 + 0) = PAD_TOKEN →
      undelay (fun _ _ => PAD_TOKEN : Grid) 0 0 = 0)) :=
  ⟨by decide, by decide, by decide,
    write_policy (fun _ => (7:ℤ)) initGrid 0 1 (fun _ _ => PAD_TOKEN) 0 0
      (by decide) (by decide) (by decide)⟩

/-! ## Key/value caches (musicgen.rs lines 130-160, 214-246)

The decoder ONNX session is an external collaborator; its per-step outputs
enter the model as an oracle `outs : ℕ → DecoderOutputs T`. A cache tensor is
abstract (`T`); a cache family maps (layer, key-or-value selector) to a
tensor, modelling the string-keyed `HashMap`s
`past_key_values.{layer}.decoder.{key,value}` and
`past_key_values.{layer}.encoder.{key,value}`. -/

/-- The `present.{layer}.decoder.*` and `present.{layer}.encoder.*` outputs of
one decoder call (`Bool` selects key vs value). -/
structure DecoderOutputs (T : Type) where
  presentDec : ℕ → Bool → T
  presentEnc : ℕ → Bool → T

/-- The two cache families (`decoder_cache` and `encoder_cache`). -/
structure CacheState (T : Type) where
  dec : ℕ → Bool → T
  enc : ℕ → Bool → T

/-- Line 160: `let use_cache = step > 0`. -/
def use_cache (step : ℕ) : Bool := decide (0 < step)

/-- Lines 214-246: after the call at `step`, every decoder (self-attention)
entry is replaced by the `present` decoder output; the encoder
(cross-attention) entries are replaced by the `present` encoder outputs only
when `!use_cache`, i.e. on the first step. -/
def cacheStep {T : Type} (out : DecoderOutputs T) (step : ℕ)
    (c : CacheState T) : CacheState T :=
  { dec := out.presentDec
    enc := if use_cache step then c.enc else out.presentEnc }

/-- Cache state after `n` completed loop steps starting from `init`
(lines 135-152 build `init` out of zero-length tensors). -/
def cacheAfter {T : Type} (outs : ℕ → DecoderOutputs T)
    (init : CacheState T) : ℕ → CacheState T
  | 0 => init
  | n + 1 => cacheStep (outs n) n (cacheAfter outs init n)

/-- C6: after any completed step `s`, the self-attention (decoder) cache holds
exactly the `present` outputs of the call at step `s`; the cross-attention
(encoder) cache holds the `present` outputs of the call at step 0 — it is
populated on the first iteration and never modified afterwards; and the
use-cache flag is false exactly on step 0. -/
theorem cache_update_policy {T : Type} (outs : ℕ → DecoderOutputs T)
    (init : CacheState T) (s : ℕ) :
    (cacheAfter outs init (s + 1)).dec = (outs s).presentDec
    ∧ (cacheAfter outs init (s + 1)).enc = (outs 0).presentEnc
    ∧ (use_cache s = false ↔ s = 0) := by
  refine ⟨rfl, ?_, ?_⟩
  · induction s with
    | zero => rfl
    | succ n ih =>
        show (cacheStep (outs (n + 1)) (n + 1) (cacheAfter outs init (n + 1))).enc
          = (outs 0).presentEnc
        unfold cacheStep
        have htrue : use_cache (n + 1) = true := by simp [use_cache]
        rw [htrue, if_pos rfl]
        exact ih
  · simp [use_cache]

/-! ## Classifier-free guidance combiner (musicgen.rs lines 255-257)

`cfg_logits = &uncond_logits + GUIDANCE_SCALE * (&cond_logits - &uncond_logits)`
is elementwise over the logit tensors; a tensor is modelled as a function from
(flattened) indices to rationals. -/

/-- The elementwise guidance combination at an arbitrary scale. -/
def combine (cond uncond : ℕ → ℚ) (scale : ℚ) : ℕ → ℚ := fun i =>
  uncond i + scale * (cond i - uncond i)

/-- Lines 256-257 instantiate the combination at the constant `GUIDANCE_SCALE`. -/
def cfg_logits (cond uncond : ℕ → ℚ) : ℕ → ℚ := combine cond uncond GUIDANCE_SCALE

/-- C4: the guidance combiner computes
`guided = uncond + scale * (cond - uncond)` elementwise, and at scale 1 it
returns the conditional logits exactly; the generation loop applies it at
`GUIDANCE_SCALE`. -/
theorem guidance_combine (cond uncond : ℕ → ℚ) (scale : ℚ) (i : ℕ) :
    combine cond uncond scale i = uncond i + scale * (cond i - uncond i)
    ∧ combine cond uncond 1 i = cond i
    ∧ cfg_logits cond uncond i = uncond i + GUIDANCE_SCALE * (cond i - uncond i) := by
  refine ⟨rfl, ?_, rfl⟩
  unfold combine
  ring

/-! ## Top-k sampler (musicgen.rs lines 328-345)

An entry of `indexed` is a pair (original vocabulary index, score); the Rust
pair field `.0` is `.1` here and `.1` is `.2`. -/

/-- One insertion of the descending sort by score; models the comparator
`b.1.partial_cmp(&a.1)` of line 334 (the claims rely on no particular order
among tied scores). -/
def sortDescInsert (x : ℕ × ℚ) : List (ℕ × ℚ) → List (ℕ × ℚ)
  | [] => [x]
  | y :: ys => if y.2 ≤ x.2 then x :: y :: ys else y :: sortDescInsert x ys

/-- Lines 333-334: `sort_unstable_by` with the descending comparator. -/
def sortDesc : List (ℕ × ℚ) → List (ℕ × ℚ)
  | [] => []
  | x :: xs => sortDescInsert x (sortDesc xs)

/-- The running totals of a weight list: the cumulative weights that
`rand::distributions::WeightedIndex::new` stores. -/
def cumulativeSums (acc : ℚ) : List ℚ → List ℚ
  | [] => []
  | w :: ws => (acc + w) :: cumulativeSums (acc + w) ws

/-- `WeightedIndex::sample`: with the drawn weight `u`, the chosen index is
the partition point of the ascending cumulative weights under `w ≤ u`. -/
def weightedChoose (weights : List ℚ) (u : ℚ) : ℕ :=
  (cumulativeSums 0 weights).countP (fun w => decide (w ≤ u))

/-- Lines 329-335: enumerate the logits, sort descending by score, keep the
first `k.min(logits.len())` entries. -/
def topKIndexed (logits : List ℚ) (k : ℕ) : List (ℕ × ℚ) :=
  (sortDesc logits.enum).take (min k logits.length)

/-- Lines 337-338: `max_logit = indexed[0].1` is `top.2`, and
`exps = indexed.iter().map(|(_, v)| (v - max_logit).exp())` with the `f32`
exponential entering as the parameter `fexp`. -/
def sampleExps (top : ℕ × ℚ) (rest : List (ℕ × ℚ)) (fexp : ℚ → ℚ) : List ℚ :=
  (top :: rest).map (fun p => fexp (p.2 - top.2))

/-- Lines 339-340: `sum = exps.iter().sum()` and
`probs = exps.iter().map(|e| e / sum)`. -/
def sampleProbs (top : ℕ × ℚ) (rest : List (ℕ × ℚ)) (fexp : ℚ → ℚ) : List ℚ :=
  (sampleExps top rest fexp).map (fun e => e / (sampleExps top rest fexp).sum)

/-- Lines 328-345. The random source is modelled by `r`, the fraction of the
total weight at which `WeightedIndex::sample`'s uniform draw lands (the rng
state determines `r`, so identical states give identical `r`). The panics of
the source (`indexed[0]` on empty logits; `WeightedIndex::new(..).unwrap()` on
a negative weight or a non-positive total) are modelled as `none`. -/
def top_k_sample (logits : List ℚ) (k : ℕ) (fexp : ℚ → ℚ) (r : ℚ) : Option ℤ :=
  match topKIndexed logits k with
  | [] => none
  | top :: rest =>
    if ((sampleProbs top rest fexp).any fun p => decide (p < 0)) = true
        ∨ (sampleProbs top rest fexp).sum ≤ 0 then none
    else
      match (top :: rest).get? (weightedChoose (sampleProbs top rest fexp)
          (r * (sampleProbs top rest fexp).sum)) with
      | some p => some (p.1 : ℤ)
      | none => none

lemma length_sortDescInsert (x : ℕ × ℚ) (l : List (ℕ × ℚ)) :
    (sortDescInsert x l).length = l.length + 1 := by
  induction l with
  | nil => rfl
  | cons y ys ih =>
      unfold sortDescInsert
      split_ifs
      · rfl
      · simp only [List.length_cons, ih]

lemma length_sortDesc (l : List (ℕ × ℚ)) : (sortDesc l).length = l.length := by
  induction l with
  | nil => rfl
  | cons x xs ih =>
      unfold sortDesc
      rw [length_sortDescInsert, ih, List.length_cons]

lemma mem_sortDescInsert {y x : ℕ × ℚ} {l : List (ℕ × ℚ)}
    (h : y ∈ sortDescInsert x l) : y = x ∨ y ∈ l := by
  induction l with
  | nil => exact Or.inl (List.mem_singleton.mp h)
  | cons a as ih =>
      unfold sortDescInsert at h
      split_ifs at h
      · simpa using h
      · rcases List.mem_cons.mp h with h1 | h2
        · exact Or.inr (List.mem_cons.mpr (Or.inl h1))
        · rcases ih h2 with h3 | h4
          · exact Or.inl h3
          · exact Or.inr (List.mem_cons.mpr (Or.inr h4))

lemma mem_sortDesc {y : ℕ × ℚ} {l : List (ℕ × ℚ)} (h : y ∈ sortDesc l) :
    y ∈ l := by
  induction l with
  | nil => exact absurd h (List.not_mem_nil y)
  | cons x xs ih =>
      unfold sortDesc at h
      rcases mem_sortDescInsert h with h1 | h2
      · simp [h1]
      · exact List.mem_cons.mpr (Or.inr (ih h2))

lemma length_cumulativeSums (acc : ℚ) (l : List ℚ) :
    (cumulativeSums acc l).length = l.length := by
  induction l generalizing acc with
  | nil => rfl
  | cons w ws ih =>
      unfold cumulativeSums
      rw [List.length_cons, ih, List.length_cons]

lemma sum_mem_cumulativeSums (acc : ℚ) (l : List ℚ) (h : l ≠ []) :
    acc + l.sum ∈ cumulativeSums acc l := by
  induction l generalizing acc with
  | nil => exact absurd rfl h
  | cons w ws ih =>
      unfold cumulativeSums
      rcases eq_or_ne ws [] with hws | hws
      · subst hws
        simp
      · have hmem := ih (acc + w) hws
        have hsum : acc + (w :: ws).sum = acc + w + ws.sum := by
          rw [List.sum_cons]
          ring
        rw [hsum]
        exact List.mem_cons.mpr (Or.inr hmem)

lemma fst_lt_of_mem_enum {p : ℕ × ℚ} {l : List ℚ} (h : p ∈ l.enum) :
    p.1 < l.length := by
  rw [List.mem_enum_iff_getElem?] at h
  exact (List.getElem?_eq_some.mp h).1

lemma sum_map_div (l : List ℚ) (c : ℚ) :
    (l.map fun x => x / c).sum = l.sum / c := by
  induction l with
  | nil => simp
  | cons x xs ih => simp [ih, add_div]

lemma sampleExps_pos (top : ℕ × ℚ) (rest : List (ℕ × ℚ)) (fexp : ℚ → ℚ)
    (hfexp : ∀ x, 0 < fexp x) : 0 < (sampleExps top rest fexp).sum := by
  refine List.sum_pos _ ?_ ?_
  · intro x hx
    obtain ⟨p, hp, rfl⟩ := List.mem_map.mp hx
    exact hfexp _
  · simp [sampleExps]

lemma sampleProbs_pos (top : ℕ × ℚ) (rest : List (ℕ × ℚ)) (fexp : ℚ → ℚ)
    (hfexp : ∀ x, 0 < fexp x) : ∀ q ∈ sampleProbs top rest fexp, 0 < q := by
  intro q hq
  obtain ⟨e, he, rfl⟩ := List.mem_map.mp hq
  obtain ⟨p, hp, rfl⟩ := List.mem_map.mp he
  exact div_pos (hfexp _) (sampleExps_pos top rest fexp hfexp)

lemma sampleProbs_sum (top : ℕ × ℚ) (rest : List (ℕ × ℚ)) (fexp : ℚ → ℚ)
    (hfexp : ∀ x, 0 < fexp x) : (sampleProbs top rest fexp).sum = 1 := by
  unfold sampleProbs
  rw [sum_map_div]
  exact div_self (ne_of_gt (sampleExps_pos top rest fexp hfexp))

lemma sampleProbs_length (top : ℕ × ℚ) (rest : List (ℕ × ℚ)) (fexp : ℚ → ℚ) :
    (sampleProbs top rest fexp).length = (top :: rest).length := by
  unfold sampleProbs sampleExps
  rw [List.length_map, List.length_map]

lemma weightedChoose_lt_length (weights : List ℚ) (u : ℚ) (hne : weights ≠ [])
    (hu : u < weights.sum) : weightedChoose weights u < weights.length := by
  unfold weightedChoose
  have hmem : (0:ℚ) + weights.sum ∈ cumulativeSums 0 weights :=
    sum_mem_cumulativeSums 0 weights hne
  have hle : (cumulativeSums 0 weights).countP (fun w => decide (w ≤ u))
      ≤ (cumulativeSums 0 weights).length :=
    List.countP_le_length _
  have hne_all : (cumulativeSums 0 weights).countP (fun w => decide (w ≤ u))
      ≠ (cumulativeSums 0 weights).length := by
    intro heq
    rw [List.countP_eq_length] at heq
    have hcontra := heq _ hmem
    rw [decide_eq_true_eq, zero_add] at hcontra
    linarith
  rw [length_cumulativeSums] at hle hne_all
  omega

lemma sample_branch (top : ℕ × ℚ) (rest : List (ℕ × ℚ)) (fexp : ℚ → ℚ) (r : ℚ)
    (hfexp : ∀ x, 0 < fexp x) (_hr0 : 0 ≤ r) (hr1 : r < 1) :
    ∃ p, p ∈ top :: rest ∧
      (top :: rest).get? (weightedChoose (sampleProbs top rest fexp)
        (r * (sampleProbs top rest fexp).sum)) = some p := by
  have hsum := sampleProbs_sum top rest fexp hfexp
  have hplen := sampleProbs_length top rest fexp
  have hpne : sampleProbs top rest fexp ≠ [] := by
    intro h
    rw [h] at hplen
    simp at hplen
  have hu : r * (sampleProbs top rest fexp).sum
      < (sampleProbs top rest fexp).sum := by
    rw [hsum]
    linarith
  have hch := weightedChoose_lt_length _ _ hpne hu
  rw [hplen] at hch
  exact ⟨(top :: rest).get ⟨_, hch⟩, List.get_mem _ _ _, List.get?_eq_get hch⟩

lemma top_k_sample_branch (logits : List ℚ) (k : ℕ) (fexp : ℚ → ℚ) (r : ℚ)
    (top : ℕ × ℚ) (rest : List (ℕ × ℚ))
    (hcons : topKIndexed logits k = top :: rest) :
    top_k_sample logits k fexp r =
      if ((sampleProbs top rest fexp).any fun p => decide (p < 0)) = true
          ∨ (sampleProbs top rest fexp).sum ≤ 0 then none
      else
        match (top :: rest).get? (weightedChoose (sampleProbs top rest fexp)
            (r * (sampleProbs top rest fexp).sum)) with
        | some p => some (p.1 : ℤ)
        | none => none := by
  unfold top_k_sample
  rw [hcons]

/-- C7: top-k sampling is a pure function of the logits vector, `k` and the
random-source state, so identical inputs give identical tokens; the internal
`k` is clamped to the logits length (`k.min(logits.len())`); and — for
nonempty logits, positive `k`, a positive weight function (as the real
exponential is) and a uniform draw landing at fraction `r ∈ [0,1)` of the
total weight — the sampler returns a token id that is an index of the
original logits vector. -/
theorem sampler_props (logits : List ℚ) (k : ℕ) (fexp : ℚ → ℚ) (r : ℚ)
    (hne : logits ≠ []) (hk : 0 < k) (hfexp : ∀ x, 0 < fexp x)
    (hr0 : 0 ≤ r) (hr1 : r < 1) :
    (∀ logits2 k2 fexp2 r2, logits2 = logits → k2 = k → fexp2 = fexp →
      r2 = r → top_k_sample logits2 k2 fexp2 r2 = top_k_sample logits k fexp r)
    ∧ top_k_sample logits k fexp r
        = top_k_sample logits (min k logits.length) fexp r
    ∧ ∃ i : ℕ, i < logits.length ∧ top_k_sample logits k fexp r = some (i : ℤ) := by
  refine ⟨?_, ?_, ?_⟩
  · rintro l2 k2 f2 r2 rfl rfl rfl rfl
    rfl
  · have hcl : topKIndexed logits k = topKIndexed logits (min k logits.length) := by
      unfold topKIndexed
      have hmm : min (min k logits.length) logits.length = min k logits.length := by
        rw [min_assoc, min_self]
      rw [hmm]
    unfold top_k_sample
    rw [hcl]
  · have hlen : (topKIndexed logits k).length = min k logits.length := by
      unfold topKIndexed
      rw [List.length_take, length_sortDesc, List.enum_length, min_assoc,
        min_self]
    have hpos : 0 < (topKIndexed logits k).length := by
      rw [hlen]
      have h1 : 0 < logits.length := List.length_pos.mpr hne
      omega
    obtain ⟨top, rest, hcons⟩ :=
      List.exists_cons_of_ne_nil (List.length_pos.mp hpos)
    obtain ⟨p, hp_mem, hp_get⟩ := sample_branch top rest fexp r hfexp hr0 hr1
    have hp_enum : p ∈ logits.enum := by
      have h1 : p ∈ topKIndexed logits k := by
        rw [hcons]
        exact hp_mem
      exact mem_sortDesc (List.mem_of_mem_take h1)
    have hcond : ¬ (((sampleProbs top rest fexp).any fun q => decide (q < 0)) = true
        ∨ (sampleProbs top rest fexp).sum ≤ 0) := by
      rintro (h | h)
      · rw [List.any_eq_true] at h
        obtain ⟨q, hq, hq2⟩ := h
        rw [decide_eq_true_eq] at hq2
        exact absurd (sampleProbs_pos top rest fexp hfexp q hq) (by linarith)
      · rw [sampleProbs_sum top rest fexp hfexp] at h
        linarith
    refine ⟨p.1, fst_lt_of_mem_enum hp_enum, ?_⟩
    rw [top_k_sample_branch logits k fexp r top rest hcons, if_neg hcond, hp_get]

theorem sampler_props_witness :
    ([(1:ℚ), 2] ≠ []) ∧ 0 < 50 ∧ (∀ x : ℚ, 0 < (fun _ : ℚ => (1:ℚ)) x)
    ∧ (0:ℚ) ≤ 1/2 ∧ (1/2:ℚ) < 1 ∧
    ((∀ logits2 k2 fexp2 r2, logits2 = [(1:ℚ), 2] → k2 = 50 →
        fexp2 = (fun _ : ℚ => (1:ℚ)) → r2 = 1/2 →
        top_k_sample logits2 k2 fexp2 r2
          = top_k_sample [(1:ℚ), 2] 50 (fun _ : ℚ => (1:ℚ)) (1/2))
    ∧ top_k_sample [(1:ℚ), 2] 50 (fun _ : ℚ => (1:ℚ)) (1/2)
        = top_k_sample [(1:ℚ), 2] (min 50 ([(1:ℚ), 2]).length)
            (fun _ : ℚ => (1:ℚ)) (1/2)
    ∧ ∃ i : ℕ, i < ([(1:ℚ), 2]).length ∧
        top_k_sample [(1:ℚ), 2] 50 (fun _ : ℚ => (1:ℚ)) (1/2) = some (i : ℤ)) :=
  ⟨by decide, by decide, fun x => one_pos, by norm_num, by norm_num,
    sampler_props [(1:ℚ), 2] 50 (fun _ : ℚ => (1:ℚ)) (1/2)
      (by decide) (by decide) (fun x => one_pos) (by norm_num) (by norm_num)⟩

/-! ## Per-step guided sampling (musicgen.rs lines 255-266) -/

/-- Lines 255-257 restricted to one codebook's vocabulary row: the guided
logits are `uncond + GUIDANCE_SCALE * (cond - uncond)`, with the scale being
the module constant. -/
def cfgCombine (cond uncond : List ℚ) : List ℚ :=
  List.zipWith (fun c u => u + GUIDANCE_SCALE * (c - u)) cond uncond

/-- Lines 259-266: for each codebook `cb` the token is sampled from the
guided logits by `top_k_sample(.., TOP_K, ..)` with the module constant
`TOP_K`; `fexp` and `rdraw` model the exponential and the rng draw of that
call. -/
def step_sampled (cond uncond : ℕ → List ℚ) (fexp : ℚ → ℚ) (rdraw : ℕ → ℚ)
    (cb : ℕ) : Option ℤ :=
  top_k_sample (cfgCombine (cond cb) (uncond cb)) TOP_K fexp (rdraw cb)

/-- C8, evaluated at a failing input: the decoder loop builds guided logits
with the module constant `GUIDANCE_SCALE = 3.0` and samples with the module
constant `TOP_K = 50`; `generate_from_text` (musicgen.rs lines 350-357) has
no params argument, so no caller-supplied guidance scale or top-k reaches the
loop. With conditional logits `[0, 1]` and unconditional logits `[0, 0]` the
guided logits are `[0, 3]`, whereas a caller-requested scale of 1.0 would
require `[0, 1]`; and every sampler call receives `k = 50` whatever the
caller asked for. -/
theorem caller_params_ignored :
    GUIDANCE_SCALE = 3 ∧ TOP_K = 50
    ∧ cfgCombine [0, 1] [0, 0] = [0, 3]
    ∧ cfgCombine [0, 1] [0, 0] ≠ [0, 1]
    ∧ ∀ cond uncond fexp rdraw cb,
        step_sampled cond uncond fexp rdraw cb
          = top_k_sample (cfgCombine (cond cb) (uncond cb)) 50 fexp (rdraw cb) := by
  refine ⟨rfl, rfl, ?_, ?_, fun _ _ _ _ _ => rfl⟩
  · unfold cfgCombine GUIDANCE_SCALE
    norm_num
  · unfold cfgCombine GUIDANCE_SCALE
    norm_num

/-! ## Generation entry points (poing-editor/src/model.rs, poing-core) -/

/-- `poing_core::GenerationState` (poing-core/src/lib.rs lines 12-17). -/
inductive GenerationState where
  | idle : GenerationState
  | generating : GenerationState
  | complete : GenerationState
  | error : String → GenerationState
deriving DecidableEq

/-- Rust `prompt.trim().is_empty()`: the string is empty or consists only of
whitespace (Rust trims Unicode White_Space; modelled by
`Char.isWhitespace`). -/
def trimIsEmpty (s : String) : Bool := s.toList.all (fun c => c.isWhitespace)

/-- The part of the editor state that the guards of `start_generation`
(poing-editor/src/model.rs lines 204-231) consult. -/
structure EditorState where
  is_generating : Bool
  prompt : String
  has_model_path : Bool

/-- Outcome of one `start_generation` call: the generation-state cell it
leaves behind, and whether it spawned the worker thread (lines 250-296) that
loads and invokes the models — models are only ever touched inside that
worker. -/
structure StartOutcome where
  genState : GenerationState
  spawned_worker : Bool

/-- poing-editor/src/model.rs lines 204-251: the guard sequence of
`start_generation`. A call while a generation is already running is a no-op
(the state cell keeps its prior value); an empty/whitespace-only prompt is
rejected with a precondition error before the model worker is spawned; a
missing model path is rejected likewise; otherwise the state becomes
`Generating` and the worker is spawned. -/
def start_generation (st : EditorState) (prior : GenerationState) :
    StartOutcome :=
  if st.is_generating then
    { genState := prior, spawned_worker := false }
  else if trimIsEmpty st.prompt then
    { genState := GenerationState.error "Please enter a prompt",
      spawned_worker := false }
  else if !st.has_model_path then
    { genState := GenerationState.error "No model path configured",
      spawned_worker := false }
  else
    { genState := GenerationState.generating, spawned_worker := true }

/-- C9: for every prompt that is empty or whitespace-only, the generation
entry point rejects it before any model is invoked: with no generation
already running, `start_generation` records the precondition error
"Please enter a prompt" and does not spawn the model worker, so no model
invocation occurs. -/
theorem empty_prompt_rejected (st : EditorState) (prior : GenerationState)
    (hgen : st.is_generating = false) (hp : trimIsEmpty st.prompt = true) :
    (start_generation st prior).genState
        = GenerationState.error "Please enter a prompt"
    ∧ (start_generation st prior).spawned_worker = false := by
  unfold start_generation
  simp only [hgen, hp]
  exact ⟨rfl, rfl⟩

theorem empty_prompt_rejected_witness :
    (EditorState.mk false "   " true).is_generating = false
    ∧ trimIsEmpty (EditorState.mk false "   " true).prompt = true
    ∧ ((start_generation (EditorState.mk false "   " true)
          GenerationState.idle).genState
        = GenerationState.error "Please enter a prompt"
    ∧ (start_generation (EditorState.mk false "   " true)
          GenerationState.idle).spawned_worker = false) :=
  ⟨rfl, by decide, empty_prompt_rejected _ GenerationState.idle rfl (by decide)⟩

/-- Possible outcomes of a Rust call: a returned `Ok`, a returned `Err`, or a
panic (which is what `todo!` raises). -/
inductive RustOutcome (α : Type) where
  | ok : α → RustOutcome α
  | err : String → RustOutcome α
  | panicked : String → RustOutcome α

/-- musicgen.rs lines 362-369: the body of `generate_from_audio` is
`todo!("MusicGen audio-to-audio inference not yet implemented")`, which
panics immediately. The second component is the trace of model invocations
performed before the panic — none: no session is loaded or run. -/
def generate_from_audio (_prompt : String) (_input_audio : List ℚ)
    (_model_dir : String) (_progress_callback : ℚ → Unit) :
    RustOutcome (List ℚ) × List String :=
  (RustOutcome.panicked
    "not yet implemented: MusicGen audio-to-audio inference not yet implemented",
   [])

/-- C10: for every prompt, input audio, model directory and progress
callback, `generate_from_audio` never returns a result — neither `Ok` nor
`Err` — it panics as unimplemented, and its model-invocation trace is empty:
no model is invoked. -/
theorem generate_from_audio_unimplemented (prompt : String)
    (input_audio : List ℚ) (model_dir : String)
    (progress_callback : ℚ → Unit) :
    (∀ samples,
      (generate_from_audio prompt input_audio model_dir progress_callback).1
        ≠ RustOutcome.ok samples)
    ∧ (∀ e,
      (generate_from_audio prompt input_audio model_dir progress_callback).1
        ≠ RustOutcome.err e)
    ∧ (generate_from_audio prompt input_audio model_dir progress_callback).2
        = [] := by
  refine ⟨?_, ?_, rfl⟩
  · intro s h
    exact RustOutcome.noConfusion h
  · intro e h
    exact RustOutcome.noConfusion h

end Poing
